import Mathlib

/-!
Shallow embedding of the AI_EDU_Recommender core pipeline
(`app/llm_ranker.py`, `app/embeddings.py`, `app/recommender.py`,
`app/schemas.py`).

Modelling conventions:
* Python floats are modelled by exact rationals (`ℚ`); the similarity
  values fed to the retriever are modelled by an arbitrary linearly
  ordered type so every possible score vector is covered.
* Pydantic model construction is modelled by `mkRecommendation`, which
  returns `Except String Recommendation` and enforces the declared field
  constraints (`rank ≥ 1`, `0 ≤ match_score ≤ 1`); pydantic's
  string-to-number lax coercions are not exercised by any claim and are
  not modelled.
* The remote chat-completion call is I/O; its result is modelled by the
  `LlmOutcome` parameter of `rerank` (a `failure` covers a transport
  error, a non-2xx status and an empty response body, all of which raise
  inside `_call_llm`).
-/

/-! ## Data model (`app/schemas.py`)

Enumerations (`Difficulty`, `LearningStyle`, `ContentFormat`) are string
enums in the source and are compared as strings throughout, so they are
modelled as `String` carrying the enum value. -/

deriving instance DecidableEq for Except

structure ContentItem where
  id : Int
  title : String
  description : String
  difficulty : String
  duration_minutes : Int
  tags : List String
  format : String
deriving DecidableEq

structure UserProfile where
  user_id : String
  name : String
  goal : String
  learning_style : String
  preferred_difficulty : String
  time_per_day : Int
  viewed_content_ids : List Int
  interest_tags : List String
deriving DecidableEq

structure Recommendation where
  rank : Int
  id : Int
  title : String
  format : String
  difficulty : String
  duration_minutes : Int
  tags : List String
  explanation : String
  match_score : Option ℚ
deriving DecidableEq

/-- Pydantic validation of `Recommendation` (`app/schemas.py` lines
98-114): `rank` carries `Field(..., ge=1)` and `match_score` carries
`Field(None, ge=0.0, le=1.0)`; constructing a model that violates a
constraint raises a `ValidationError`, modelled by `Except.error`. -/
def mkRecommendation (rank : Int) (id : Int) (title : String)
    ( format : String) (difficulty : String) (duration_minutes : Int)
    (tags : List String) (explanation : String) (match_score : Option ℚ) :
    Except String Recommendation :=
  if 1 ≤ rank then
    match match_score with
    | none =>
      .ok ⟨rank, id, title, format, difficulty, duration_minutes, tags,
        explanation, none⟩
    | some s =>
      if 0 ≤ s ∧ s ≤ 1 then
        .ok ⟨rank, id, title, format, difficulty, duration_minutes, tags,
          explanation, some s⟩
      else .error "validation error: match_score must be between 0 and 1"
  else .error "validation error: rank must be at least 1"

structure RerankResult where
  recommendations : List Recommendation
  reasoning_raw : Option String
  method : String
deriving DecidableEq

/-! ## Rule-based fallback (`app/llm_ranker.py` `_rule_based_rerank`) -/

/-- `_STYLE_FORMAT_MAP.get(style, set())`. -/
def styleFormats (style : String) : List String :=
  if style = "visual" then ["video"]
  else if style = "reading" then ["slides", "lecture"]
  else if style = "hands-on" then ["video", "lecture"]
  else []

/-- `_DIFFICULTY_ORDER.get(d, 1)`. -/
def difficultyOrder (d : String) : Int :=
  if d = "Beginner" then 0
  else if d = "Intermediate" then 1
  else if d = "Advanced" then 2
  else 1

/-- `set(xs) & set(ys)` restricted to counting/joining: the distinct
elements of `xs` that also occur in `ys` (CPython set iteration order is
unspecified; the catalogue order of `xs` is used as a deterministic
stand-in, which no claim depends on). -/
def distinctInter (xs ys : List String) : List String :=
  xs.dedup.filter (fun t => decide (t ∈ ys))

/-- `len(user_tags & set(item.tags)) / max(len(user_tags), 1)`. -/
def tagOverlap (p : UserProfile) (item : ContentItem) : ℚ :=
  ((distinctInter p.interest_tags item.tags).length : ℚ) /
    ((max p.interest_tags.dedup.length 1 : ℕ) : ℚ)

/-- `tag_overlap + format_bonus - diff_penalty`. -/
def itemScore (p : UserProfile) (item : ContentItem) : ℚ :=
  tagOverlap p item
    + (if item.format ∈ styleFormats p.learning_style then (2 : ℚ)/10 else 0)
    - (((difficultyOrder item.difficulty
          - difficultyOrder p.preferred_difficulty).natAbs : ℚ)) * ((15 : ℚ)/100)

/-- Python `round(q, 3)` (exact-rational stand-in for the float round;
no claim depends on the half-to-even boundary behaviour). -/
def round3 (q : ℚ) : ℚ := ((round (q * 1000) : ℤ) : ℚ) / 1000

/-- The `scored` list: candidates that survive the viewed / time-budget
exclusions, paired with their heuristic score, in candidate order. -/
def ruleScored (p : UserProfile) (candidates : List ContentItem) :
    List (ℚ × ContentItem) :=
  candidates.filterMap (fun item =>
    if item.id ∈ p.viewed_content_ids then none
    else if p.time_per_day < item.duration_minutes then none
    else some (itemScore p item, item))

/-- Stable insertion of `x` in front of the first element whose key is
not greater, preserving the relative order of equal keys. -/
def insertByKeyDesc {α β : Type} [LinearOrder β] (key : α → β) (x : α) :
    List α → List α
  | [] => [x]
  | y :: ys =>
    if key x < key y then y :: insertByKeyDesc key x ys else x :: y :: ys

/-- Stable descending sort by key: the extensional behaviour of Python's
`list.sort(key=..., reverse=True)` (Timsort is stable). -/
def sortByKeyDesc {α β : Type} [LinearOrder β] (key : α → β) :
    List α → List α
  | [] => []
  | x :: xs => insertByKeyDesc key x (sortByKeyDesc key xs)

/-- The `for rank, (score, item) in enumerate(scored[:3], start=1)` loop
body: each kept item becomes a `Recommendation`; a pydantic
`ValidationError` aborts the whole call. -/
def ruleBuildRecs (p : UserProfile) :
    Int → List (ℚ × ContentItem) → Except String (List Recommendation)
  | _, [] => .ok []
  | rank, (score, item) :: rest => do
    let r ← mkRecommendation rank item.id item.title item.format
      item.difficulty item.duration_minutes item.tags
      ("Matched on tags ("
        ++ String.intercalate ", " (distinctInter item.tags p.interest_tags)
        ++ "), format fits your " ++ p.learning_style
        ++ " style, and difficulty is " ++ item.difficulty ++ ".")
      (some (round3 score))
    let rest ← ruleBuildRecs p (rank + 1) rest
    .ok (r :: rest)

/-- `_rule_based_rerank(profile, candidates)`. -/
def ruleBasedRerank (p : UserProfile) (candidates : List ContentItem) :
    Except String RerankResult := do
  let sorted := sortByKeyDesc Prod.fst (ruleScored p candidates)
  let recs ← ruleBuildRecs p 1 (sorted.take 3)
  .ok ⟨recs,
    some "Rule-based scoring: tag overlap + format match + difficulty proximity.",
    "rule-based"⟩

/-! ## JSON values and `json.loads` (consumed by `_extract_json_array`)

A value model of the JSON documents exchanged with the ranking endpoint.
JSON numbers are modelled exactly as rationals; integer-valued numbers
(denominator 1) play the role of Python `int`s.  The parser follows the
strict JSON grammar accepted by `json.loads` (objects, arrays, strings
with escapes, numbers with optional fraction/exponent, literals,
whitespace); a failed parse is `none`. -/

inductive Json where
  | null
  | bool (b : Bool)
  | num (q : ℚ)
  | str (s : String)
  | arr (elems : List Json)
  | obj (fields : List (String × Json))

/-- A parsed JSON object (a Python `dict`): its key/value pairs. -/
abbrev JObj := List (String × Json)

def jIsWs (c : Char) : Bool :=
  c = ' ' || c = '\t' || c = '\n' || c = '\r'

def skipWs : List Char → List Char
  | [] => []
  | c :: cs => if jIsWs c then skipWs cs else c :: cs

def escChar (c : Char) : Option Char :=
  if c = '"' then some '"'
  else if c = '\\' then some '\\'
  else if c = '/' then some '/'
  else if c = 'b' then some (Char.ofNat 8)
  else if c = 'f' then some (Char.ofNat 12)
  else if c = 'n' then some '\n'
  else if c = 'r' then some '\r'
  else if c = 't' then some '\t'
  else none

def hexVal (c : Char) : Option Nat :=
  if '0' ≤ c ∧ c ≤ '9' then some (c.toNat - 48)
  else if 'a' ≤ c ∧ c ≤ 'f' then some (c.toNat - 87)
  else if 'A' ≤ c ∧ c ≤ 'F' then some (c.toNat - 55)
  else none

def hex4 : List Char → Option (Nat × List Char)
  | a :: b :: c :: d :: rest => do
    let x ← hexVal a
    let y ← hexVal b
    let z ← hexVal c
    let w ← hexVal d
    some ((((x * 16 + y) * 16 + z) * 16 + w), rest)
  | _ => none

/-- Body of a JSON string after the opening quote; returns the decoded
characters and the input after the closing quote. -/
def parseJString : Nat → List Char → Option (List Char × List Char)
  | 0, _ => none
  | _ + 1, [] => none
  | fuel + 1, c :: cs =>
    if c = '"' then some ([], cs)
    else if c = '\\' then
      match cs with
      | [] => none
      | e :: cs1 =>
        if e = 'u' then
          match hex4 cs1 with
          | some (n, cs2) =>
            (parseJString fuel cs2).map (fun p => (Char.ofNat n :: p.1, p.2))
          | none => none
        else
          match escChar e with
          | some d => (parseJString fuel cs1).map (fun p => (d :: p.1, p.2))
          | none => none
    else (parseJString fuel cs).map (fun p => (c :: p.1, p.2))

def isDigitCh (c : Char) : Bool := '0' ≤ c && c ≤ '9'

def takeDigits : List Char → (List Nat × List Char)
  | [] => ([], [])
  | c :: cs =>
    if isDigitCh c then
      let (ds, rest) := takeDigits cs
      ((c.toNat - 48) :: ds, rest)
    else ([], c :: cs)

def digitsToNat (ds : List Nat) : Nat :=
  ds.foldl (fun acc d => acc * 10 + d) 0

def parseNumberExpDigits (mant : ℚ) (cs : List Char) : Option (ℚ × List Char) :=
  let (eneg, cs1) := match cs with
    | '-' :: rest => (true, rest)
    | '+' :: rest => (false, rest)
    | _ => (false, cs)
  let (eDs, cs2) := takeDigits cs1
  match eDs with
  | [] => none
  | _ =>
    let e : ℤ := if eneg then -(digitsToNat eDs : ℤ) else (digitsToNat eDs : ℤ)
    some (mant * (10 : ℚ) ^ e, cs2)

def parseNumberExp (mant : ℚ) (cs : List Char) : Option (ℚ × List Char) :=
  match cs with
  | 'e' :: cs1 => parseNumberExpDigits mant cs1
  | 'E' :: cs1 => parseNumberExpDigits mant cs1
  | _ => some (mant, cs)

/-- JSON number: `-? int frac? exp?` with the leading-zero restriction
on the integer part.  Pure integers take the arithmetic-free path so
that concrete integer documents evaluate inside the kernel. -/
def parseNumber (cs0 : List Char) : Option (ℚ × List Char) :=
  let (neg, cs1) := match cs0 with
    | '-' :: rest => (true, rest)
    | _ => (false, cs0)
  let (intDs, cs2) := takeDigits cs1
  match intDs with
  | [] => none
  | 0 :: _ :: _ => none
  | _ =>
    let intPart : ℚ := ((digitsToNat intDs : ℤ) : ℚ)
    match cs2 with
    | '.' :: cs3 =>
      let (fracDs, cs4) := takeDigits cs3
      match fracDs with
      | [] => none
      | _ =>
        let mant : ℚ := intPart
          + ((digitsToNat fracDs : ℤ) : ℚ) / ((10 : ℚ) ^ fracDs.length)
        parseNumberExp (if neg then -mant else mant) cs4
    | _ => parseNumberExp (if neg then -intPart else intPart) cs2

mutual

/-- One JSON value, leading whitespace allowed. -/
def parseVal : Nat → List Char → Option (Json × List Char)
  | 0, _ => none
  | fuel + 1, cs0 =>
    match skipWs cs0 with
    | [] => none
    | c :: rest =>
      if c = '{' then
        match skipWs rest with
        | '}' :: cs1 => some (.obj [], cs1)
        | _ => (parseObjTail fuel [] rest).map (fun p => (.obj p.1, p.2))
      else if c = '[' then
        match skipWs rest with
        | ']' :: cs1 => some (.arr [], cs1)
        | _ => (parseArrTail fuel [] rest).map (fun p => (.arr p.1, p.2))
      else if c = '"' then
        (parseJString (rest.length + 1) rest).map
          (fun p => (.str (String.mk p.1), p.2))
      else if c = 't' then
        if ['r', 'u', 'e'].isPrefixOf rest then some (.bool true, rest.drop 3)
        else none
      else if c = 'f' then
        if ['a', 'l', 's', 'e'].isPrefixOf rest then some (.bool false, rest.drop 4)
        else none
      else if c = 'n' then
        if ['u', 'l', 'l'].isPrefixOf rest then some (.null, rest.drop 3)
        else none
      else
        (parseNumber (c :: rest)).map (fun p => (.num p.1, p.2))

/-- Comma-separated values after `[` (at least one element). -/
def parseArrTail : Nat → List Json → List Char → Option (List Json × List Char)
  | 0, _, _ => none
  | fuel + 1, acc, cs =>
    match parseVal fuel cs with
    | none => none
    | some (v, cs1) =>
      match skipWs cs1 with
      | ']' :: cs2 => some (acc ++ [v], cs2)
      | ',' :: cs2 => parseArrTail fuel (acc ++ [v]) cs2
      | _ => none

/-- Comma-separated `"key": value` pairs after `{` (at least one pair). -/
def parseObjTail : Nat → JObj → List Char → Option (JObj × List Char)
  | 0, _, _ => none
  | fuel + 1, acc, cs =>
    match skipWs cs with
    | '"' :: cs1 =>
      match parseJString (cs1.length + 1) cs1 with
      | none => none
      | some (key, cs2) =>
        match skipWs cs2 with
        | ':' :: cs3 =>
          match parseVal fuel cs3 with
          | none => none
          | some (v, cs4) =>
            match skipWs cs4 with
            | '}' :: cs5 => some (acc ++ [(String.mk key, v)], cs5)
            | ',' :: cs5 => parseObjTail fuel (acc ++ [(String.mk key, v)]) cs5
            | _ => none
        | _ => none
    | _ => none

end

/-- `json.loads` on a character list: the whole input must be consumed
(up to trailing whitespace). -/
def jsonLoads (cs : List Char) : Option Json :=
  match parseVal (2 * cs.length + 4) cs with
  | some (v, rest) => if skipWs rest = [] then some v else none
  | none => none

/-! ## `_extract_json_array` (`app/llm_ranker.py` lines 138-162) -/

/-- The inner `for j in range(i, len(raw))` scan: bracket depth is
tracked character by character (string contents included, exactly as in
the source) and the scan stops at the first position where the depth
returns to 0.  `j` is the absolute index of that position. -/
def findCloseAux : List Char → Int → Nat → Option Nat
  | [], _, _ => none
  | c :: cs, depth, j =>
    let d := if c = '[' then depth + 1 else if c = ']' then depth - 1 else depth
    if d = 0 then some j else findCloseAux cs d (j + 1)

def findClose (raw : List Char) (i : Nat) : Option Nat :=
  findCloseAux (raw.drop i) 0 i

/-- `raw[i]` with the out-of-range default `' '` (never a `'['`). -/
def charAt (raw : List Char) (i : Nat) : Char := raw.getD i ' '

/-- `all(isinstance(x, dict) for x in parsed)`: the element objects, or
`none` if some element is not an object. -/
def asObjList : List Json → Option (List JObj)
  | [] => some []
  | .obj f :: rest => (asObjList rest).map (fun l => f :: l)
  | _ => none

/-- The candidate at start index `i`: the balanced span starting there,
parsed, if it is a JSON array whose elements are all objects. -/
def spanObjs (raw : List Char) (i : Nat) : Option (List JObj) :=
  if charAt raw i = '[' then
    match findClose raw i with
    | some j =>
      match jsonLoads ((raw.drop i).take (j - i + 1)) with
      | some (.arr xs) => asObjList xs
      | _ => none
    | none => none
  else none

/-- One step of the outer `for i, ch in enumerate(raw)` loop: `best` is
replaced only by a strictly longer candidate. -/
def extractStep (raw : List Char) (best : List JObj) (i : Nat) : List JObj :=
  match spanObjs raw i with
  | some objs => if best.length < objs.length then objs else best
  | none => best

/-- `_extract_json_array(raw)`: the largest list of objects among the
balanced bracket spans of `raw`, earliest span winning ties. -/
def extractJsonArray (raw : List Char) : List JObj :=
  (List.range raw.length).foldl (extractStep raw) []

/-! ## `_parse_llm_response` (`app/llm_ranker.py` lines 165-199) -/

/-- `item.get(key)` on a parsed object: Python `dict` keeps the last
binding of a duplicated key, so the lookup is from the right. -/
def jlookup (obj : JObj) (key : String) : Option Json :=
  (obj.reverse.find? (fun p => p.1 = key)).map (fun p => p.2)

/-- Pydantic validation of an `int` field: a JSON number with integral
value (pydantic's lax mode also accepts integral floats such as `3.0`,
which `json.loads` of `ℚ`-modelled numbers makes indistinguishable from
`3`; bools and strings are rejected). -/
def jsonToInt : Json → Option Int
  | .num q => if q.den = 1 then some q.num else none
  | _ => none

/-- Pydantic validation of a `str` field. -/
def jsonToStr : Json → Option String
  | .str s => some s
  | _ => none

/-- Pydantic validation of a `list[str]` field. -/
def jsonToStrList : Json → Option (List String)
  | .arr xs => xs.mapM jsonToStr
  | _ => none

/-- `cand_map.get(cid)`: Python `dict` lookup with numeric-equality
semantics — an integral JSON number equal to a candidate id matches
(as does a bool for ids 0/1, mirroring `True == 1`). -/
def matchedCandidate (candidates : List ContentItem) (obj : JObj) :
    Option ContentItem :=
  match jlookup obj "id" with
  | some (.num q) => candidates.find? (fun c => q = (c.id : ℚ))
  | some (.bool b) => candidates.find? (fun c => (if b then 1 else 0 : Int) = c.id)
  | _ => none

/-- A field that is back-filled: present keys must validate, absent keys
fall back to the given default (exactly `item.get(key, default)` fed to
pydantic). -/
def fieldOr {α : Type} (validate : Json → Option α) (obj : JObj) (key : String)
    (dflt : α) : Except String α :=
  match jlookup obj key with
  | none => .ok dflt
  | some v =>
    match validate v with
    | some a => .ok a
    | none => .error "validation error: bad field value"

/-- The loop body of `_parse_llm_response`: one extracted object becomes
one `Recommendation` with the given 1-indexed `rank` (any `"rank"` key
in the object is ignored). -/
def parseLlmItem (candidates : List ContentItem) (rank : Int) (obj : JObj) :
    Except String Recommendation := do
  let fallback := matchedCandidate candidates obj
  let cid ← match jlookup obj "id" with
    | none => Except.error "validation error: id is required"
    | some v =>
      match jsonToInt v with
      | some n => Except.ok n
      | none => Except.error "validation error: id must be an int"
  let title ← fieldOr jsonToStr obj "title"
    ((fallback.map (fun c => c.title)).getD "")
  let fmt ← fieldOr jsonToStr obj "format"
    ((fallback.map (fun c => c.format)).getD "")
  let difficulty ← fieldOr jsonToStr obj "difficulty"
    ((fallback.map (fun c => c.difficulty)).getD "")
  let duration ← fieldOr jsonToInt obj "duration_minutes"
    ((fallback.map (fun c => c.duration_minutes)).getD 0)
  let tags ← fieldOr jsonToStrList obj "tags"
    ((fallback.map (fun c => c.tags)).getD [])
  let explanation ← fieldOr jsonToStr obj "explanation"
    "Recommended based on your profile."
  mkRecommendation rank cid title fmt difficulty duration tags explanation none

/-- `for idx, item in enumerate(items[:3], start=1)`: the objects are
mapped in order; the first validation error aborts the whole parse. -/
def parseLlmItems (candidates : List ContentItem) :
    Int → List JObj → Except String (List Recommendation)
  | _, [] => .ok []
  | rank, obj :: rest => do
    let r ← parseLlmItem candidates rank obj
    let rs ← parseLlmItems candidates (rank + 1) rest
    .ok (r :: rs)

/-- `_parse_llm_response(raw, candidates)`. -/
def parseLlmResponse (raw : String) (candidates : List ContentItem) :
    Except String (List Recommendation) :=
  match extractJsonArray raw.data with
  | [] => .error "No valid JSON array found in LLM response."
  | items => parseLlmItems candidates 1 (items.take 3)

/-! ## `rerank` (`app/llm_ranker.py` lines 265-289)

The network call `_call_llm` is I/O and is modelled by its outcome:
`failure` stands for any exception escaping it (transport error,
`raise_for_status` on a non-2xx reply, empty response text), `success`
carries the fence-stripped response text and the optional reasoning. -/

inductive LlmOutcome where
  | failure (message : String)
  | success (text : String) (reasoning : Option String)

/-- `rerank(profile, candidates)` with the configuration flag
`LLM_API_KEY` and the remote outcome made explicit.  An exception
raised by the rule-based fallback itself (pydantic validation) is not
caught anywhere and propagates, exactly as in the source. -/
def rerank (apiKeyConfigured : Bool) (outcome : LlmOutcome)
    (p : UserProfile) (candidates : List ContentItem) :
    Except String RerankResult :=
  if apiKeyConfigured = false then ruleBasedRerank p candidates
  else
    match outcome with
    | .failure _ => ruleBasedRerank p candidates
    | .success text reasoning =>
      match parseLlmResponse text candidates with
      | .ok recs => .ok ⟨recs, reasoning, "llm"⟩
      | .error _ => ruleBasedRerank p candidates

/-! ## `retrieve_top_k` (`app/embeddings.py` lines 115-133)

The similarity vector is the single argument the filtering / sorting /
truncation logic consumes, so that logic is stated over an arbitrary
linearly ordered score type; `retrieveTopKVec` instantiates it with the
actual cosine similarities over `ℝ`. -/

/-- The `scored` comprehension: `(idx, score)` for every enumerated
similarity whose catalogue item is not excluded (in the program
`len(sims) == len(items)`, so the `none` guard is never taken). -/
def retrieveScored {α : Type} (sims : List α) (items : List ContentItem)
    (excludeIds : List Int) : List (Nat × α) :=
  sims.enum.filter (fun p =>
    match items.get? p.1 with
    | some it => decide (it.id ∉ excludeIds)
    | none => false)

/-- `retrieve_top_k(user_emb, content_embs, items, k, exclude_ids)`
with the cosine similarities passed in. -/
def retrieveTopK {α : Type} [LinearOrder α] (sims : List α)
    (items : List ContentItem) (k : Nat) (excludeIds : List Int) :
    List ContentItem :=
  let sorted := sortByKeyDesc Prod.snd (retrieveScored sims items excludeIds)
  (sorted.take k).filterMap (fun p => items.get? p.1)

/-- `sum(u[i] * v[i])`, the dot product underlying
`sklearn.metrics.pairwise.cosine_similarity`. -/
def dotL (u v : List ℝ) : ℝ := (List.zipWith (fun a b => a * b) u v).sum

/-- Cosine similarity as computed by sklearn: rows are normalised by
their Euclidean norm, a zero row is left as the zero vector (sklearn
replaces a zero norm by 1), so the similarity of a zero vector against
anything is 0 rather than a division error. -/
noncomputable def cosineSim (u v : List ℝ) : ℝ :=
  if dotL u u = 0 ∨ dotL v v = 0 then 0
  else dotL u v / (Real.sqrt (dotL u u) * Real.sqrt (dotL v v))

/-- The full retriever: `cosine_similarity(user_emb, content_embs)[0]`
followed by the filter/sort/truncate logic. -/
noncomputable def retrieveTopKVec (u : List ℝ) (vs : List (List ℝ))
    (items : List ContentItem) (k : Nat) (excludeIds : List Int) :
    List ContentItem :=
  retrieveTopK (vs.map (cosineSim u)) items k excludeIds

/-! ## Catalogue-embedding cache (`app/recommender.py` lines 32-44)

`hash(tuple(item.id for item in items))` is CPython's built-in hash:
the integer hash is reduction modulo the Mersenne prime `2^61 - 1`
(negatives near-symmetric, `-1` mapped to `-2`), and the tuple hash is
the xxHash-based combination used since CPython 3.8. -/

def pyHashModulus : Int := 2305843009213693951

/-- CPython `hash(n)` for an `int` `n`. -/
def pyHashInt (n : Int) : Int :=
  if 0 ≤ n then n % pyHashModulus
  else
    let m : Int := -((-n) % pyHashModulus)
    if m = -1 then -2 else m

def U64 : Nat := 18446744073709551616

def xxPrime1 : Nat := 11400714785074694791
def xxPrime2 : Nat := 14029467366897019727
def xxPrime5 : Nat := 2870177450012600261

/-- `_PyHASH_XXROTATE`: rotate a 64-bit word left by 31. -/
def xxRotate (x : Nat) : Nat := ((x <<< 31) % U64) ||| (x >>> 33)

/-- Signed 64-bit lane cast to `Py_uhash_t`. -/
def toU64 (n : Int) : Nat := (n % (U64 : Int)).toNat

def tupleHashStep (acc : Nat) (lane : Int) : Nat :=
  (xxRotate ((acc + toU64 lane * xxPrime2) % U64) * xxPrime1) % U64

/-- CPython `tuple.__hash__` over the element hashes. -/
def pyTupleHash (lanes : List Int) : Int :=
  let acc0 := lanes.foldl tupleHashStep xxPrime5
  let acc1 := (acc0 + Nat.xor lanes.length (Nat.xor xxPrime5 3527539)) % U64
  let acc2 := if acc1 = U64 - 1 then 1546275796 else acc1
  if acc2 < 2 ^ 63 then (acc2 : Int) else (acc2 : Int) - (U64 : Int)

/-- `hash(tuple(item.id for item in items))`. -/
def catalogueIdsHash (ids : List Int) : Int :=
  pyTupleHash (ids.map pyHashInt)

/-- The module-level mutable cache
(`_cached_content_embs`, `_cache_hash`). -/
structure EmbCache where
  embs : Option (List (List ℚ))
  hsh : Option Int
deriving DecidableEq

def emptyCache : EmbCache := ⟨none, none⟩

/-- Result of one call to `_get_cached_content_embeddings`: the returned
array, the cache state afterwards, and whether the embedding backend
(`get_content_embeddings`) was invoked. -/
structure CacheRun where
  result : List (List ℚ)
  cache : EmbCache
  invoked : Bool
deriving DecidableEq

/-- `_get_cached_content_embeddings()` with the catalogue and the
embedding backend passed explicitly; recomputes exactly when
`_cached_content_embs is None or _cache_hash != current_hash`. -/
def getCachedContentEmbeddings (embed : List ContentItem → List (List ℚ))
    (items : List ContentItem) (c : EmbCache) : CacheRun :=
  let currentHash := catalogueIdsHash (items.map (fun it => it.id))
  match c.embs with
  | none => ⟨embed items, ⟨some (embed items), some currentHash⟩, true⟩
  | some e =>
    if c.hsh = some currentHash then ⟨e, c, false⟩
    else ⟨embed items, ⟨some (embed items), some currentHash⟩, true⟩

/-! ## Auxiliary notions used in the specifications -/

/-- Out-of-range placeholder item (never produced by the program;
`List.getD` needs a default). -/
def dfltItem : ContentItem := ⟨0, "", "", "", 0, [], ""⟩

/-- `a` is ranked strictly before `b` in a stable descending sort by
`key`: either its key is larger, or the keys tie and `a` precedes `b`
in the input order (recorded by `Q`). -/
def keyRankRel {α β : Type} [LinearOrder β] (key : α → β)
    (Q : α → α → Prop) (a b : α) : Prop :=
  key b < key a ∨ (key a = key b ∧ Q a b)

/-! ## Concrete scenario inputs -/

/-- Profile exercising the fallback crash: no interests, `reading`
style, prefers `Beginner`, 60 minutes per day, nothing viewed. -/
def pC1 : UserProfile := ⟨"u1x", "Avery", "learn", "reading", "Beginner", 60, [], []⟩

/-- Advanced 30-minute video with no tags: heuristic score
`0 + 0 - 0.3 = -0.3`, outside `match_score`'s `[0, 1]` bounds. -/
def itemC1 : ContentItem := ⟨42, "T", "D", "Advanced", 30, [], "video"⟩

/-- Profile whose single interest tag fully matches. -/
def pC2 : UserProfile := ⟨"u2x", "Blair", "learn", "visual", "Beginner", 60, [], ["a"]⟩

/-- Beginner 30-minute video tagged `a`: heuristic score
`1 + 0.2 - 0 = 1.2`, outside `match_score`'s `[0, 1]` bounds. -/
def itemC2 : ContentItem := ⟨7, "T", "D", "Beginner", 30, ["a"], "video"⟩

/-- Profile that has already viewed content id 1. -/
def pC3 : UserProfile := ⟨"u3x", "Cam", "learn", "visual", "Beginner", 60, [1], []⟩

/-- A remote response recommending exactly the already-viewed id 1. -/
def rawC3 : String := "[\x7b\"id\": 1, \"explanation\": \"seen\"\x7d]"

/-- Profile and candidates for a valid rule-based run: the only
eligible candidate scores `1/2 + 0 - 0 = 0.5`. -/
def pC3w : UserProfile :=
  ⟨"u3w", "Drew", "learn", "visual", "Beginner", 60, [5], ["a", "b"]⟩

def candsC3w : List ContentItem :=
  [⟨5, "V", "d", "Beginner", 30, ["a"], "slides"⟩,
   ⟨6, "W", "d", "Beginner", 30, ["a"], "slides"⟩]

/-- The result of `ruleBasedRerank pC3w candsC3w` (item 5 is viewed and
skipped; item 6 scores 0.5). -/
def rC3w : RerankResult :=
  ⟨[⟨1, 6, "W", "slides", "Beginner", 30, ["a"],
      "Matched on tags (a), format fits your visual style, and difficulty is Beginner.",
      some ((1 : ℚ)/2)⟩],
    some "Rule-based scoring: tag overlap + format match + difficulty proximity.",
    "rule-based"⟩

/-- Prose wrapping two JSON arrays, of lengths 2 and 3. -/
def rawC4 : String :=
  "ok [\x7b\"id\": 1\x7d, \x7b\"id\": 2\x7d] or [\x7b\"id\": 3\x7d, \x7b\"id\": 4\x7d, \x7b\"id\": 5\x7d] end"

/-- Remote output whose objects carry misleading `"rank"` fields. -/
def rawC7 : String := "[\x7b\"id\": 5, \"rank\": 9\x7d, \x7b\"id\": 6, \"rank\": 1\x7d]"

def candsC7 : List ContentItem :=
  [⟨5, "F", "d", "Beginner", 10, ["x"], "video"⟩,
   ⟨6, "S", "d", "Beginner", 10, [], "slides"⟩]

/-- The parse of `rawC7` against `candsC7`. -/
def recsC7 : List Recommendation :=
  [⟨1, 5, "F", "video", "Beginner", 10, ["x"],
      "Recommended based on your profile.", none⟩,
   ⟨2, 6, "S", "slides", "Beginner", 10, [],
      "Recommended based on your profile.", none⟩]

/-- An object with an id matching no candidate and no other field. -/
def rawC8 : String := "[\x7b\"id\": 7\x7d]"

/-- Object/candidate pair where every optional field is back-filled
from the matching candidate. -/
def objC8w : JObj := [("id", Json.num 9)]

def candsC8w : List ContentItem :=
  [⟨9, "Far", "d", "Advanced", 55, ["aws", "ml"], "lecture"⟩]

/-- `parseLlmItem candsC8w 1 objC8w`: every field back-filled from the
matching candidate, the explanation defaulted to the fixed sentence. -/
def recC8w : Recommendation :=
  ⟨1, 9, "Far", "lecture", "Advanced", 55, ["aws", "ml"],
    "Recommended based on your profile.", none⟩

/-- Placeholder recommendation (default for `List.getD`). -/
def dfltRec : Recommendation := ⟨1, 0, "", "", "", 0, [], "", none⟩

/-- Profile for the single-path witness (no candidates at all). -/
def pC10 : UserProfile := ⟨"u10", "Em", "learn", "visual", "Beginner", 60, [], []⟩

/-- `ruleBasedRerank pC10 []`: the empty recommendation list. -/
def rC10 : RerankResult :=
  ⟨[], some "Rule-based scoring: tag overlap + format match + difficulty proximity.",
    "rule-based"⟩

/-- Catalogues whose id tuples differ yet share their CPython hash
(`hash(0) == hash(2**61 - 1) == 0`). -/
def itemsC6a : List ContentItem := [⟨0, "A", "da", "Beginner", 10, [], "video"⟩]

def itemsC6b : List ContentItem :=
  [⟨2305843009213693951, "B", "db", "Beginner", 10, [], "video"⟩]

/-- A deterministic stand-in embedding backend. -/
def embedC6 : List ContentItem → List (List ℚ) :=
  fun its => its.map (fun it => [(it.duration_minutes : ℚ)])

/-- Catalogue, the same catalogue after a text-only edit, and a
catalogue with a different id set. -/
def itemsC6c : List ContentItem :=
  [⟨1, "A", "old text", "Beginner", 10, [], "video"⟩,
   ⟨2, "B", "b", "Beginner", 20, [], "video"⟩]

def itemsC6d : List ContentItem :=
  [⟨1, "A", "edited text", "Beginner", 30, [], "video"⟩,
   ⟨2, "B", "b", "Beginner", 40, [], "video"⟩]

def itemsC6e : List ContentItem :=
  [⟨1, "A", "a", "Beginner", 10, [], "video"⟩,
   ⟨3, "C", "c", "Beginner", 20, [], "video"⟩]



/-! ## Helper lemmas: stable descending sort -/

theorem insertByKeyDesc_perm {α β : Type} [LinearOrder β] (key : α → β)
    (x : α) (l : List α) : (insertByKeyDesc key x l).Perm (x :: l) := by
  induction l with
  | nil => simp [insertByKeyDesc]
  | cons y ys ih =>
    by_cases h : key x < key y
    · simp only [insertByKeyDesc, if_pos h]
      exact (ih.cons y).trans (List.Perm.swap x y ys)
    · simp [insertByKeyDesc, if_neg h]

theorem sortByKeyDesc_perm {α β : Type} [LinearOrder β] (key : α → β)
    (l : List α) : (sortByKeyDesc key l).Perm l := by
  induction l with
  | nil => simp [sortByKeyDesc]
  | cons x xs ih =>
    exact (insertByKeyDesc_perm key x (sortByKeyDesc key xs)).trans (ih.cons x)

theorem mem_sortByKeyDesc {α β : Type} [LinearOrder β] {key : α → β}
    {l : List α} {a : α} : a ∈ sortByKeyDesc key l ↔ a ∈ l :=
  (sortByKeyDesc_perm key l).mem_iff

theorem mem_insertByKeyDesc {α β : Type} [LinearOrder β] {key : α → β}
    {x : α} {l : List α} {a : α} :
    a ∈ insertByKeyDesc key x l ↔ a = x ∨ a ∈ l := by
  rw [(insertByKeyDesc_perm key x l).mem_iff, List.mem_cons]

theorem pairwise_insertByKeyDesc {α β : Type} [LinearOrder β] {key : α → β}
    {Q : α → α → Prop} {x : α} {l : List α}
    (hx : ∀ y ∈ l, Q x y) (hl : List.Pairwise (keyRankRel key Q) l) :
    List.Pairwise (keyRankRel key Q) (insertByKeyDesc key x l) := by
  induction l with
  | nil => simp [insertByKeyDesc, List.pairwise_cons]
  | cons y ys ih =>
    rw [List.pairwise_cons] at hl
    obtain ⟨hy, hys⟩ := hl
    by_cases h : key x < key y
    · simp only [insertByKeyDesc, if_pos h]
      rw [List.pairwise_cons]
      refine ⟨?_, ih (fun z hz => hx z (List.mem_cons_of_mem y hz)) hys⟩
      intro w hw
      rcases mem_insertByKeyDesc.mp hw with rfl | hw
      · exact Or.inl h
      · exact hy w hw
    · simp only [insertByKeyDesc, if_neg h]
      rw [List.pairwise_cons]
      refine ⟨?_, List.pairwise_cons.mpr ⟨hy, hys⟩⟩
      intro w hw
      have hyx : key y ≤ key x := not_lt.mp h
      rcases List.mem_cons.mp hw with rfl | hw
      · rcases lt_or_eq_of_le hyx with hlt | heq
        · exact Or.inl hlt
        · exact Or.inr ⟨heq.symm, hx w (List.mem_cons_self w ys)⟩
      · rcases hy w hw with hlt | ⟨heq, _⟩
        · exact Or.inl (lt_of_lt_of_le hlt hyx)
        · rcases lt_or_eq_of_le (heq ▸ hyx) with hlt | heq2
          · exact Or.inl hlt
          · exact Or.inr ⟨heq2.symm, hx w (List.mem_cons_of_mem y hw)⟩

theorem pairwise_sortByKeyDesc {α β : Type} [LinearOrder β] (key : α → β)
    {Q : α → α → Prop} {l : List α} (hl : List.Pairwise Q l) :
    List.Pairwise (keyRankRel key Q) (sortByKeyDesc key l) := by
  induction l with
  | nil => simp [sortByKeyDesc]
  | cons x xs ih =>
    rw [List.pairwise_cons] at hl
    exact pairwise_insertByKeyDesc
      (fun y hy => hl.1 y (mem_sortByKeyDesc.mp hy)) (ih hl.2)

/-! ## Helper lemmas: enumeration and filtering -/

theorem fst_le_of_mem_enumFrom {α : Type} :
    ∀ {l : List α} {n : ℕ} {p : ℕ × α}, p ∈ l.enumFrom n → n ≤ p.1 := by
  intro l
  induction l with
  | nil => intro n p h; simp [List.enumFrom] at h
  | cons x xs ih =>
    intro n p h
    rcases List.mem_cons.mp h with rfl | h
    · exact le_refl _
    · exact le_trans (Nat.le_succ n) (ih h)

theorem pairwise_fst_lt_enumFrom {α : Type} :
    ∀ (l : List α) (n : ℕ),
      List.Pairwise (fun a b => a.1 < b.1) (l.enumFrom n) := by
  intro l
  induction l with
  | nil => intro n; simp [List.enumFrom]
  | cons x xs ih =>
    intro n
    rw [List.enumFrom, List.pairwise_cons]
    exact ⟨fun p hp => lt_of_lt_of_le (Nat.lt_succ_self n)
      (fst_le_of_mem_enumFrom hp), ih (n + 1)⟩

theorem pairwise_fst_lt_enum {α : Type} (l : List α) :
    List.Pairwise (fun a b => a.1 < b.1) l.enum :=
  pairwise_fst_lt_enumFrom l 0

theorem filterMap_eq_map_of_some {α β : Type} {f : α → Option β} {g : α → β} :
    ∀ {l : List α}, (∀ x ∈ l, f x = some (g x)) → l.filterMap f = l.map g := by
  intro l
  induction l with
  | nil => intro _; simp
  | cons x xs ih =>
    intro h
    rw [List.filterMap_cons, h x (List.mem_cons_self x xs), List.map_cons,
      ih (fun y hy => h y (List.mem_cons_of_mem x hy))]

/-! ## Helper lemmas: membership in the scored/filtered lists -/

theorem ruleScored_mem {p : UserProfile} {cands : List ContentItem}
    {pr : ℚ × ContentItem} (h : pr ∈ ruleScored p cands) :
    pr.2 ∈ cands ∧ pr.2.id ∉ p.viewed_content_ids
      ∧ pr.2.duration_minutes ≤ p.time_per_day := by
  unfold ruleScored at h
  rcases List.mem_filterMap.mp h with ⟨item, hitem, hf⟩
  by_cases hv : item.id ∈ p.viewed_content_ids
  · rw [if_pos hv] at hf; exact absurd hf (by simp)
  · rw [if_neg hv] at hf
    by_cases ht : p.time_per_day < item.duration_minutes
    · rw [if_pos ht] at hf; exact absurd hf (by simp)
    · rw [if_neg ht] at hf
      have : pr = (itemScore p item, item) := by
        injection hf with h1; exact h1.symm
      subst this
      exact ⟨hitem, hv, not_lt.mp ht⟩

theorem retrieveScored_mem {α : Type} {sims : List α}
    {items : List ContentItem} {ex : List Int} {p : ℕ × α}
    (h : p ∈ retrieveScored sims items ex) :
    ∃ it, items.get? p.1 = some it ∧ it.id ∉ ex := by
  unfold retrieveScored at h
  have hcond := List.of_mem_filter h
  cases hget : items.get? p.1 with
  | none => rw [hget] at hcond; exact absurd hcond (by simp)
  | some it =>
    rw [hget] at hcond
    exact ⟨it, rfl, of_decide_eq_true hcond⟩

/-! ## Helper lemmas: inverting the record constructions -/


theorem mkRecommendation_ok {rank id : Int} {title fmt diff : String}
    {dur : Int} {tags : List String} {expl : String} {ms : Option ℚ}
    {rec : Recommendation}
    (h : mkRecommendation rank id title fmt diff dur tags expl ms = .ok rec) :
    rec = ⟨rank, id, title, fmt, diff, dur, tags, expl, ms⟩ := by
  unfold mkRecommendation at h
  split at h
  · split at h
    · injection h with h2; exact h2.symm
    · split at h
      · injection h with h2; exact h2.symm
      · exact absurd h (by simp)
  · exact absurd h (by simp)

theorem fieldOr_ok_of_absent {α : Type} {validate : Json → Option α}
    {obj : JObj} {key : String} {dflt a : α}
    (h : fieldOr validate obj key dflt = .ok a)
    (hk : jlookup obj key = none) : a = dflt := by
  unfold fieldOr at h
  rw [hk] at h
  injection h with h1
  exact h1.symm

theorem parseLlmItem_ok {cands : List ContentItem} {rank : Int} {obj : JObj}
    {rec : Recommendation} (h : parseLlmItem cands rank obj = .ok rec) :
    rec.rank = rank
    ∧ (jlookup obj "id").bind jsonToInt = some rec.id
    ∧ (jlookup obj "title" = none →
        rec.title = ((matchedCandidate cands obj).map (fun c => c.title)).getD "")
    ∧ (jlookup obj "format" = none →
        rec.format = ((matchedCandidate cands obj).map (fun c => c.format)).getD "")
    ∧ (jlookup obj "difficulty" = none →
        rec.difficulty
          = ((matchedCandidate cands obj).map (fun c => c.difficulty)).getD "")
    ∧ (jlookup obj "duration_minutes" = none →
        rec.duration_minutes
          = ((matchedCandidate cands obj).map (fun c => c.duration_minutes)).getD 0)
    ∧ (jlookup obj "tags" = none →
        rec.tags = ((matchedCandidate cands obj).map (fun c => c.tags)).getD [])
    ∧ (jlookup obj "explanation" = none →
        rec.explanation = "Recommended based on your profile.") := by
  cases hid : jlookup obj "id" with
  | none => simp [parseLlmItem, hid, bind, Except.bind] at h
  | some v =>
    cases hv : jsonToInt v with
    | none => simp [parseLlmItem, hid, hv, bind, Except.bind] at h
    | some n =>
      cases h1 : fieldOr jsonToStr obj "title"
          ((Option.map (fun c => c.title) (matchedCandidate cands obj)).getD "") with
      | error e => simp [parseLlmItem, hid, hv, h1, bind, Except.bind] at h
      | ok title =>
      cases h2 : fieldOr jsonToStr obj "format"
          ((Option.map (fun c => c.format) (matchedCandidate cands obj)).getD "") with
      | error e => simp [parseLlmItem, hid, hv, h1, h2, bind, Except.bind] at h
      | ok fmt =>
      cases h3 : fieldOr jsonToStr obj "difficulty"
          ((Option.map (fun c => c.difficulty) (matchedCandidate cands obj)).getD "") with
      | error e => simp [parseLlmItem, hid, hv, h1, h2, h3, bind, Except.bind] at h
      | ok diff =>
      cases h4 : fieldOr jsonToInt obj "duration_minutes"
          ((Option.map (fun c => c.duration_minutes) (matchedCandidate cands obj)).getD 0) with
      | error e => simp [parseLlmItem, hid, hv, h1, h2, h3, h4, bind, Except.bind] at h
      | ok dur =>
      cases h5 : fieldOr jsonToStrList obj "tags"
          ((Option.map (fun c => c.tags) (matchedCandidate cands obj)).getD []) with
      | error e => simp [parseLlmItem, hid, hv, h1, h2, h3, h4, h5, bind, Except.bind] at h
      | ok tags =>
      cases h6 : fieldOr jsonToStr obj "explanation"
          "Recommended based on your profile." with
      | error e => simp [parseLlmItem, hid, hv, h1, h2, h3, h4, h5, h6, bind, Except.bind] at h
      | ok expl =>
        have hmk : mkRecommendation rank n title fmt diff dur tags expl none
            = .ok rec := by
          simpa [parseLlmItem, hid, hv, h1, h2, h3, h4, h5, h6, bind,
            Except.bind] using h
        have hrec := mkRecommendation_ok hmk
        subst hrec
        refine ⟨rfl, ?_, ?_, ?_, ?_, ?_, ?_, ?_⟩
        · simp [hv]
        · intro hk; exact fieldOr_ok_of_absent h1 hk
        · intro hk; exact fieldOr_ok_of_absent h2 hk
        · intro hk; exact fieldOr_ok_of_absent h3 hk
        · intro hk; exact fieldOr_ok_of_absent h4 hk
        · intro hk; exact fieldOr_ok_of_absent h5 hk
        · intro hk; exact fieldOr_ok_of_absent h6 hk

theorem parseLlmItems_ok {cands : List ContentItem} :
    ∀ {objs : List JObj} {s : Int} {rs : List Recommendation},
      parseLlmItems cands s objs = .ok rs →
      rs.length = objs.length
      ∧ (∀ i (hi : i < rs.length), (rs.get ⟨i, hi⟩).rank = s + i)
      ∧ ∀ r ∈ rs, ∃ obj ∈ objs, (jlookup obj "id").bind jsonToInt = some r.id := by
  intro objs
  induction objs with
  | nil =>
    intro s rs h
    unfold parseLlmItems at h
    injection h with h1
    subst h1
    exact ⟨rfl, fun i hi => absurd hi (by simp), fun r hr => absurd hr (by simp)⟩
  | cons obj rest ih =>
    intro s rs h
    cases h1 : parseLlmItem cands s obj with
    | error e => simp [parseLlmItems, h1, bind, Except.bind] at h
    | ok r0 =>
      cases h2 : parseLlmItems cands (s + 1) rest with
      | error e => simp [parseLlmItems, h1, h2, bind, Except.bind] at h
      | ok rs1 =>
        have hrs : rs = r0 :: rs1 := by
          have := h
          simp [parseLlmItems, h1, h2, bind, Except.bind] at this
          exact this.symm
        subst hrs
        obtain ⟨hlen, hrank, hid⟩ := ih h2
        refine ⟨by simp [hlen], ?_, ?_⟩
        · intro i hi
          cases i with
          | zero => simpa using (parseLlmItem_ok h1).1
          | succ j =>
            have hj : j < rs1.length := by
              simpa [Nat.succ_lt_succ_iff] using hi
            have := hrank j hj
            simp only [List.get_cons_succ]
            rw [this]
            push_cast
            ring
        · intro r hr
          rcases List.mem_cons.mp hr with rfl | hr
          · exact ⟨obj, List.mem_cons_self obj rest, (parseLlmItem_ok h1).2.1⟩
          · obtain ⟨o, ho, hoid⟩ := hid r hr
            exact ⟨o, List.mem_cons_of_mem obj ho, hoid⟩

theorem parseLlmResponse_ok {raw : String} {cands : List ContentItem}
    {rs : List Recommendation} (h : parseLlmResponse raw cands = .ok rs) :
    parseLlmItems cands 1 ((extractJsonArray raw.data).take 3) = .ok rs
    ∧ extractJsonArray raw.data ≠ [] := by
  unfold parseLlmResponse at h
  cases he : extractJsonArray raw.data with
  | nil => rw [he] at h; exact absurd h (by simp)
  | cons a l => rw [he] at h; exact ⟨h, by simp⟩

theorem ruleBuildRecs_ok {p : UserProfile} :
    ∀ {l : List (ℚ × ContentItem)} {s : Int} {rs : List Recommendation},
      ruleBuildRecs p s l = .ok rs →
      ∀ r ∈ rs, ∃ pr ∈ l, r.id = pr.2.id := by
  intro l
  induction l with
  | nil =>
    intro s rs h
    unfold ruleBuildRecs at h
    injection h with h1
    subst h1
    exact fun r hr => absurd hr (by simp)
  | cons pr rest ih =>
    intro s rs h
    obtain ⟨sc, item⟩ := pr
    cases h1 : mkRecommendation s item.id item.title item.format
        item.difficulty item.duration_minutes item.tags
        ("Matched on tags ("
          ++ String.intercalate ", " (distinctInter item.tags p.interest_tags)
          ++ "), format fits your " ++ p.learning_style
          ++ " style, and difficulty is " ++ item.difficulty ++ ".")
        (some (round3 sc)) with
    | error e => simp [ruleBuildRecs, h1, bind, Except.bind] at h
    | ok r0 =>
      cases h2 : ruleBuildRecs p (s + 1) rest with
      | error e => simp [ruleBuildRecs, h1, h2, bind, Except.bind] at h
      | ok rs1 =>
        have hrs : rs = r0 :: rs1 := by
          have := h
          simp [ruleBuildRecs, h1, h2, bind, Except.bind] at this
          exact this.symm
        subst hrs
        intro r hr
        rcases List.mem_cons.mp hr with rfl | hr
        · refine ⟨(sc, item), List.mem_cons_self _ rest, ?_⟩
          rw [mkRecommendation_ok h1]
        · obtain ⟨q, hq, hqid⟩ := ih h2 r hr
          exact ⟨q, List.mem_cons_of_mem _ hq, hqid⟩

theorem ruleBasedRerank_ok {p : UserProfile} {cands : List ContentItem}
    {r : RerankResult} (h : ruleBasedRerank p cands = .ok r) :
    r.method = "rule-based"
    ∧ ∀ rec ∈ r.recommendations, ∃ it ∈ cands,
        rec.id = it.id ∧ it.id ∉ p.viewed_content_ids
        ∧ it.duration_minutes ≤ p.time_per_day := by
  cases hb : ruleBuildRecs p 1
      ((sortByKeyDesc Prod.fst (ruleScored p cands)).take 3) with
  | error e => simp [ruleBasedRerank, hb, bind, Except.bind] at h
  | ok recs =>
    have hr : r = ⟨recs,
        some "Rule-based scoring: tag overlap + format match + difficulty proximity.",
        "rule-based"⟩ := by
      have := h
      simp [ruleBasedRerank, hb, bind, Except.bind] at this
      exact this.symm
    subst hr
    refine ⟨rfl, ?_⟩
    intro rec hrec
    obtain ⟨pr, hpr, hprid⟩ := ruleBuildRecs_ok hb rec hrec
    have hpr2 : pr ∈ ruleScored p cands :=
      mem_sortByKeyDesc.mp (List.mem_of_mem_take hpr)
    obtain ⟨hmem, hnv, hdur⟩ := ruleScored_mem hpr2
    exact ⟨pr.2, hmem, hprid, hnv, hdur⟩

/-! ## Helper lemmas: the extraction fold -/

theorem extractStep_le (raw : List Char) (best : List JObj) (i : ℕ) :
    best.length ≤ (extractStep raw best i).length := by
  unfold extractStep
  cases spanObjs raw i with
  | none => exact le_refl _
  | some objs =>
    show best.length ≤ (if best.length < objs.length then objs else best).length
    by_cases hlt : best.length < objs.length
    · rw [if_pos hlt]; exact le_of_lt hlt
    · rw [if_neg hlt]

theorem foldl_extractStep_le (raw : List Char) :
    ∀ (l : List ℕ) (best : List JObj),
      best.length ≤ (l.foldl (extractStep raw) best).length := by
  intro l
  induction l with
  | nil => intro best; exact le_refl _
  | cons a l ih =>
    intro best
    exact le_trans (extractStep_le raw best a) (ih (extractStep raw best a))

theorem foldl_extractStep_ge {raw : List Char} {i : ℕ} {objs : List JObj}
    (hs : spanObjs raw i = some objs) :
    ∀ (l : List ℕ) (best : List JObj), i ∈ l →
      objs.length ≤ (l.foldl (extractStep raw) best).length := by
  intro l
  induction l with
  | nil => intro best hi; exact absurd hi (by simp)
  | cons a l ih =>
    intro best hi
    rcases List.mem_cons.mp hi with rfl | hi
    · refine le_trans ?_ (foldl_extractStep_le raw l (extractStep raw best i))
      unfold extractStep
      rw [hs]
      show objs.length ≤ (if best.length < objs.length then objs else best).length
      by_cases hlt : best.length < objs.length
      · rw [if_pos hlt]
      · rw [if_neg hlt]; exact not_lt.mp hlt
    · rw [List.foldl_cons]; exact ih (extractStep raw best a) hi

theorem foldl_extractStep_sound (raw : List Char) :
    ∀ (l : List ℕ) (best : List JObj),
      l.foldl (extractStep raw) best = best
      ∨ ∃ j, spanObjs raw j = some (l.foldl (extractStep raw) best) := by
  intro l
  induction l with
  | nil => intro best; exact Or.inl rfl
  | cons a l ih =>
    intro best
    rcases ih (extractStep raw best a) with heq | ⟨j, hj⟩
    · rw [List.foldl_cons, heq]
      unfold extractStep
      cases hs : spanObjs raw a with
      | none => exact Or.inl rfl
      | some objs =>
        show (if best.length < objs.length then objs else best) = best
          ∨ ∃ j, spanObjs raw j
              = some (if best.length < objs.length then objs else best)
        by_cases hlt : best.length < objs.length
        · rw [if_pos hlt]; exact Or.inr ⟨a, hs⟩
        · rw [if_neg hlt]; exact Or.inl rfl
    · exact Or.inr ⟨j, hj⟩

theorem spanObjs_lt_length {raw : List Char} {i : ℕ} {objs : List JObj}
    (h : spanObjs raw i = some objs) : i < raw.length := by
  by_contra hge
  have hd : charAt raw i = ' ' := List.getD_eq_default raw ' ' (not_lt.mp hge)
  unfold spanObjs at h
  rw [hd] at h
  exact absurd h (by simp)

/-! ## Helper lemmas: zero vectors -/

theorem dotL_zero_left {u : List ℝ} (h : ∀ x ∈ u, x = 0) :
    ∀ v, dotL u v = 0 := by
  induction u with
  | nil => intro v; simp [dotL]
  | cons x xs ih =>
    intro v
    cases v with
    | nil => simp [dotL]
    | cons y ys =>
      have hx : x = 0 := h x (List.mem_cons_self x xs)
      have hxs : ∀ z ∈ xs, z = 0 := fun z hz => h z (List.mem_cons_of_mem x hz)
      have := ih hxs ys
      simp only [dotL, List.zipWith_cons_cons, List.sum_cons] at *
      rw [hx, this]
      ring

theorem rerank_ok_cases (key : Bool) (outcome : LlmOutcome)
    (p : UserProfile) (cands : List ContentItem) (r : RerankResult)
    (h : rerank key outcome p cands = .ok r) :
    (r.method = "llm" ∧ ∃ text reasoning, outcome = LlmOutcome.success text reasoning
        ∧ parseLlmResponse text cands = .ok r.recommendations
        ∧ r.reasoning_raw = reasoning)
    ∨ (r.method = "rule-based" ∧ ruleBasedRerank p cands = .ok r) := by
  unfold rerank at h
  cases key with
  | false =>
    rw [if_pos rfl] at h
    exact Or.inr ⟨(ruleBasedRerank_ok h).1, h⟩
  | true =>
    rw [if_neg (by simp)] at h
    cases outcome with
    | failure m => exact Or.inr ⟨(ruleBasedRerank_ok h).1, h⟩
    | success text reasoning =>
      cases hp : parseLlmResponse text cands with
      | ok recs =>
        simp only [hp, Except.ok.injEq] at h
        subst h
        exact Or.inl ⟨rfl, text, reasoning, rfl, by rw [hp], rfl⟩
      | error e =>
        simp only [hp] at h
        exact Or.inr ⟨(ruleBasedRerank_ok h).1, h⟩

/-! ## Claims -/


/-- C1: the claim says any remote-path failure is caught inside `rerank`
and the rule-based result is returned with `method = "rule-based"`, never
propagating and non-empty when an eligible candidate exists.  The code
violates this: with a ranking credential configured and a transport
failure, the rule-based fallback itself raises a pydantic
`ValidationError` (heuristic score `-0.3` violates `match_score`'s
`ge=0` bound) and `rerank` propagates it, returning no result although
`itemC1` is eligible (not viewed, within the time budget). -/
theorem c1_fallback_crash_propagates :
    rerank true (LlmOutcome.failure "connection error") pC1 [itemC1]
      = .error "validation error: match_score must be between 0 and 1"
    ∧ itemC1.id ∉ pC1.viewed_content_ids
    ∧ itemC1.duration_minutes ≤ pC1.time_per_day := by
  refine ⟨by with_unfolding_all decide, by decide, by decide⟩

/-- C2: the claim says the rule-based path never raises and degrades to
fewer or zero recommendations.  The code violates this: a candidate with
full tag overlap, a format bonus and no difficulty penalty scores
`1 + 0.2 = 1.2`, and pydantic rejects `match_score = 1.2` against its
`le=1` bound, so `_rule_based_rerank` raises although `itemC2` is
eligible. -/
theorem c2_rule_based_raises :
    ruleBasedRerank pC2 [itemC2]
      = .error "validation error: match_score must be between 0 and 1"
    ∧ itemC2.id ∉ pC2.viewed_content_ids
    ∧ itemC2.duration_minutes ≤ pC2.time_per_day := by
  refine ⟨by with_unfolding_all decide, by decide, by decide⟩

/-- C3 counterexample: a successful remote response may recommend an id
on the profile's viewed list — `_parse_llm_response` never checks the
emitted ids against `viewed_content_ids`, so the claimed invariant fails
for the remote path. -/
theorem c3_counterexample :
    rerank true (LlmOutcome.success rawC3 none) pC3 []
      = .ok ⟨[⟨1, 1, "", "", "", 0, [], "seen", none⟩], none, "llm"⟩
    ∧ (1 : Int) ∈ pC3.viewed_content_ids := by
  refine ⟨by decide, by decide⟩

/-- C8 counterexample: for an object with no `"explanation"` key and no
matching candidate the claim demands an empty default, but the code
fills in the fixed non-empty sentence
`"Recommended based on your profile."`. -/
theorem c8_counterexample :
    parseLlmResponse rawC8 []
      = .ok [⟨1, 7, "", "", "", 0, [],
          "Recommended based on your profile.", none⟩]
    ∧ "Recommended based on your profile." ≠ "" := by
  refine ⟨by decide, by decide⟩

set_option maxRecDepth 100000 in
/-- C6 counterexample: the catalogues `itemsC6a` (id 0) and `itemsC6b`
(id `2^61 - 1`) have different id tuples but equal CPython hashes
(`hash(0) = hash(2^61 - 1) = 0`), so the second pipeline run does not
re-invoke the embedding backend although the id set changed. -/
theorem c6_counterexample :
    itemsC6a.map (fun it => it.id) ≠ itemsC6b.map (fun it => it.id)
    ∧ (getCachedContentEmbeddings embedC6 itemsC6b
        (getCachedContentEmbeddings embedC6 itemsC6a emptyCache).cache).invoked
        = false
    ∧ (getCachedContentEmbeddings embedC6 itemsC6b
        (getCachedContentEmbeddings embedC6 itemsC6a emptyCache).cache).result
        = embedC6 itemsC6a := by
  refine ⟨by decide, by decide, by decide⟩

/-- C4: JSON-array extraction considers, for every `[` position, the
balanced span found by char-by-char depth tracking; among the spans that
parse into a list of objects the result is a longest one (first part:
no candidate span beats the result; second part: the result, when
non-empty, is itself one of the candidate spans); and on a text holding
a length-2 and a length-3 array the length-3 one is selected. -/
theorem c4_extract_longest_balanced_span :
    (∀ (raw : List Char) (i : ℕ),
        ((spanObjs raw i).map List.length).getD 0
          ≤ (extractJsonArray raw).length)
    ∧ (∀ raw : List Char, extractJsonArray raw = []
        ∨ ∃ j, spanObjs raw j = some (extractJsonArray raw))
    ∧ (extractJsonArray rawC4.data).length = 3 := by
  refine ⟨?_, ?_, by decide⟩
  · intro raw i
    cases hs : spanObjs raw i with
    | none => simp
    | some objs =>
      show objs.length ≤ (extractJsonArray raw).length
      exact foldl_extractStep_ge hs (List.range raw.length) []
        (List.mem_range.mpr (spanObjs_lt_length hs))
  · intro raw
    exact foldl_extractStep_sound raw (List.range raw.length) []

/-- C7: whenever `_parse_llm_response` succeeds it maps at most the
first 3 extracted objects, and the `rank` of the `i`-th returned
recommendation is `i + 1` (its 1-indexed output position), regardless
of any `"rank"` field in the parsed objects. -/
theorem c7_rank_is_output_position {raw : String} {cands : List ContentItem}
    {recs : List Recommendation} (h : parseLlmResponse raw cands = .ok recs) :
    recs.length ≤ 3
    ∧ ∀ i (hi : i < recs.length), (recs.get ⟨i, hi⟩).rank = (i : Int) + 1 := by
  obtain ⟨hp, -⟩ := parseLlmResponse_ok h
  obtain ⟨hlen, hrank, -⟩ := parseLlmItems_ok hp
  constructor
  · rw [hlen]; exact List.length_take_le 3 _
  · intro i hi
    rw [hrank i hi]
    exact Int.add_comm 1 i

/-- C8 (amended): a missing `title`, `format`, `difficulty`,
`duration_minutes` or `tags` key is back-filled from the candidate whose
id matches the object's id when one exists and defaulted to an
empty/zero value otherwise, while a missing `explanation` is always
defaulted to the fixed sentence
`"Recommended based on your profile."`, never back-filled. -/
theorem c8_missing_fields_backfilled {cands : List ContentItem}
    {rank : Int} {obj : JObj} {rec : Recommendation}
    (h : parseLlmItem cands rank obj = .ok rec) :
    (jlookup obj "title" = none →
        rec.title = ((matchedCandidate cands obj).map (fun c => c.title)).getD "")
    ∧ (jlookup obj "format" = none →
        rec.format = ((matchedCandidate cands obj).map (fun c => c.format)).getD "")
    ∧ (jlookup obj "difficulty" = none →
        rec.difficulty
          = ((matchedCandidate cands obj).map (fun c => c.difficulty)).getD "")
    ∧ (jlookup obj "duration_minutes" = none →
        rec.duration_minutes
          = ((matchedCandidate cands obj).map (fun c => c.duration_minutes)).getD 0)
    ∧ (jlookup obj "tags" = none →
        rec.tags = ((matchedCandidate cands obj).map (fun c => c.tags)).getD [])
    ∧ (jlookup obj "explanation" = none →
        rec.explanation = "Recommended based on your profile.") := by
  obtain ⟨-, -, h3, h4, h5, h6, h7, h8⟩ := parseLlmItem_ok h
  exact ⟨h3, h4, h5, h6, h7, h8⟩

/-- C9: with an all-zero user vector the retriever runs without any
division error — every cosine similarity is defined to be 0 — and the
retrieval result is exactly the result on an all-zero similarity
vector. -/
theorem c9_zero_vector_cosine_zero (u : List ℝ) (h : ∀ x ∈ u, x = 0) :
    (∀ v, cosineSim u v = 0)
    ∧ ∀ (vs : List (List ℝ)) (items : List ContentItem) (k : ℕ)
        (ex : List Int),
        retrieveTopKVec u vs items k ex
          = retrieveTopK (vs.map (fun _ => (0 : ℝ))) items k ex := by
  have hz : ∀ v, cosineSim u v = 0 := by
    intro v
    unfold cosineSim
    rw [if_pos (Or.inl (dotL_zero_left h u))]
  refine ⟨hz, ?_⟩
  intro vs items k ex
  unfold retrieveTopKVec
  have : vs.map (cosineSim u) = vs.map (fun _ => (0 : ℝ)) := by
    induction vs with
    | nil => rfl
    | cons v vs ih => simp [ih, hz v]
  rw [this]

/-- C10: a successful `rerank` result comes wholly from a single path:
either its method is `"llm"` and its recommendation list is exactly a
successful parse of the remote response text, or its method is
`"rule-based"` and the whole result is the rule-based one; a failed
parse contributes nothing (the fallback replaces it entirely). -/
theorem c10_single_ranking_path (key : Bool) (outcome : LlmOutcome)
    (p : UserProfile) (cands : List ContentItem) (r : RerankResult)
    (h : rerank key outcome p cands = .ok r) :
    (r.method = "llm" ∧ ∃ text reasoning, outcome = LlmOutcome.success text reasoning
        ∧ parseLlmResponse text cands = .ok r.recommendations
        ∧ r.reasoning_raw = reasoning)
    ∨ (r.method = "rule-based" ∧ ruleBasedRerank p cands = .ok r) :=
  rerank_ok_cases key outcome p cands r h

/-- C3 (amended): a successful rule-based result never references a
viewed content id; a successful remote result carries exactly the ids
the model emitted (the parse performs no check against
`viewed_content_ids`), so the invariant holds for the remote path only
when those emitted ids avoid the viewed list. -/
theorem c3_viewed_exclusion_by_path (key : Bool) (outcome : LlmOutcome)
    (p : UserProfile) (cands : List ContentItem) (r : RerankResult)
    (h : rerank key outcome p cands = .ok r) :
    (r.method = "rule-based" →
        ∀ rec ∈ r.recommendations, rec.id ∉ p.viewed_content_ids)
    ∧ (r.method = "llm" →
        ∃ text reasoning, outcome = LlmOutcome.success text reasoning
          ∧ ∀ rec ∈ r.recommendations, ∃ obj ∈ extractJsonArray text.data,
              (jlookup obj "id").bind jsonToInt = some rec.id) := by
  rcases rerank_ok_cases key outcome p cands r h with
    ⟨hm, text, reasoning, houtcome, hparse, -⟩ | ⟨hm, hrb⟩
  · constructor
    · intro hm2
      rw [hm] at hm2
      exact absurd hm2 (by decide)
    · intro _
      refine ⟨text, reasoning, houtcome, ?_⟩
      intro rec hrec
      obtain ⟨hitems, -⟩ := parseLlmResponse_ok hparse
      obtain ⟨-, -, hid⟩ := parseLlmItems_ok hitems
      obtain ⟨obj, hobj, hoid⟩ := hid rec hrec
      exact ⟨obj, List.mem_of_mem_take hobj, hoid⟩
  · constructor
    · intro _
      intro rec hrec
      obtain ⟨it, -, hrecid, hnv, -⟩ := (ruleBasedRerank_ok hrb).2 rec hrec
      rw [hrecid]
      exact hnv
    · intro hm2
      rw [hm] at hm2
      exact absurd hm2 (by decide)

/-- C5: retrieval drops every candidate whose id is excluded, ranks the
remainder by similarity descending with ties broken by original
catalogue index (the unique stable order, expressed by
`keyRankRel Prod.snd`), returns the first `k` of that ranking, and its
output length is at most `k`. -/
theorem c5_retrieve_topk_sorted_stable (u : List ℝ) (vs : List (List ℝ))
    (items : List ContentItem) (k : ℕ) (ex : List Int) :
    ∃ ranked : List (ℕ × ℝ),
      ranked.Perm (retrieveScored (vs.map (cosineSim u)) items ex)
      ∧ List.Pairwise (keyRankRel Prod.snd (fun a b => a.1 < b.1)) ranked
      ∧ retrieveTopKVec u vs items k ex
          = (ranked.take k).map (fun p => items.getD p.1 dfltItem)
      ∧ (retrieveTopKVec u vs items k ex).length ≤ k
      ∧ ∀ it ∈ retrieveTopKVec u vs items k ex, it.id ∉ ex := by
  have hmem : ∀ p ∈ (sortByKeyDesc Prod.snd
        (retrieveScored (vs.map (cosineSim u)) items ex)).take k,
      items.get? p.1 = some (items.getD p.1 dfltItem)
      ∧ (items.getD p.1 dfltItem).id ∉ ex := by
    intro p hp
    have hp2 : p ∈ retrieveScored (vs.map (cosineSim u)) items ex :=
      mem_sortByKeyDesc.mp (List.mem_of_mem_take hp)
    obtain ⟨it, hit, hex⟩ := retrieveScored_mem hp2
    have hgd : items.getD p.1 dfltItem = it := by
      rw [List.getD_eq_getElem?_getD, ← List.get?_eq_getElem?, hit]
      rfl
    rw [hgd, hit]
    exact ⟨rfl, hex⟩
  have heq : retrieveTopKVec u vs items k ex
      = ((sortByKeyDesc Prod.snd
            (retrieveScored (vs.map (cosineSim u)) items ex)).take k).map
          (fun p => items.getD p.1 dfltItem) := by
    show ((sortByKeyDesc Prod.snd
        (retrieveScored (vs.map (cosineSim u)) items ex)).take k).filterMap
        (fun p => items.get? p.1) = _
    exact filterMap_eq_map_of_some (fun p hp => (hmem p hp).1)
  refine ⟨sortByKeyDesc Prod.snd (retrieveScored (vs.map (cosineSim u)) items ex),
    sortByKeyDesc_perm _ _, ?_, heq, ?_, ?_⟩
  · refine pairwise_sortByKeyDesc Prod.snd ?_
    exact (pairwise_fst_lt_enum (vs.map (cosineSim u))).filter _
  · rw [heq, List.length_map]
    exact List.length_take_le k _
  · intro it hit
    rw [heq] at hit
    obtain ⟨p, hp, rfl⟩ := List.mem_map.mp hit
    exact (hmem p hp).2

/-- C6 (amended): the cache is keyed by the CPython hash of the ordered
id tuple — the first run always invokes the backend; a second run skips
the backend exactly when the id-tuple hash is unchanged (so text-only
edits never invalidate and the stale vectors of the first catalogue are
returned), and re-invokes the backend whenever the hash differs; a
changed id set re-invokes only up to hash collisions. -/
theorem c6_cache_keyed_by_id_hash
    (embed : List ContentItem → List (List ℚ))
    (items1 items2 : List ContentItem) :
    (getCachedContentEmbeddings embed items1 emptyCache).invoked = true
    ∧ ((getCachedContentEmbeddings embed items2
          (getCachedContentEmbeddings embed items1 emptyCache).cache).invoked
          = false
        ↔ catalogueIdsHash (items1.map (fun it => it.id))
            = catalogueIdsHash (items2.map (fun it => it.id)))
    ∧ ((getCachedContentEmbeddings embed items2
          (getCachedContentEmbeddings embed items1 emptyCache).cache).invoked
          = false →
        (getCachedContentEmbeddings embed items2
          (getCachedContentEmbeddings embed items1 emptyCache).cache).result
          = embed items1)
    ∧ ((getCachedContentEmbeddings embed items2
          (getCachedContentEmbeddings embed items1 emptyCache).cache).invoked
          = true →
        (getCachedContentEmbeddings embed items2
          (getCachedContentEmbeddings embed items1 emptyCache).cache).result
          = embed items2) := by
  by_cases hh : catalogueIdsHash (items1.map (fun it => it.id))
      = catalogueIdsHash (items2.map (fun it => it.id))
  · refine ⟨rfl, ?_, ?_, ?_⟩
    · simp [getCachedContentEmbeddings, emptyCache, hh]
    · intro _
      simp [getCachedContentEmbeddings, emptyCache, hh]
    · intro hinv
      simp [getCachedContentEmbeddings, emptyCache, hh] at hinv
  · refine ⟨rfl, ?_, ?_, ?_⟩
    · simp [getCachedContentEmbeddings, emptyCache, hh]
    · intro hinv
      simp [getCachedContentEmbeddings, emptyCache, hh] at hinv
    · intro _
      simp [getCachedContentEmbeddings, emptyCache, hh]

/-! ## Witnesses -/

/-- Witness for C3 (amended): a concrete rule-based run where every
returned id avoids the viewed list. -/
theorem c3_viewed_exclusion_witness :
    (rC3w.method = "rule-based" →
        ∀ rec ∈ rC3w.recommendations, rec.id ∉ pC3w.viewed_content_ids)
    ∧ (rC3w.method = "llm" →
        ∃ text reasoning,
          LlmOutcome.failure "net" = LlmOutcome.success text reasoning
          ∧ ∀ rec ∈ rC3w.recommendations, ∃ obj ∈ extractJsonArray text.data,
              (jlookup obj "id").bind jsonToInt = some rec.id) :=
  c3_viewed_exclusion_by_path false (LlmOutcome.failure "net") pC3w candsC3w
    rC3w (by with_unfolding_all decide)

set_option maxRecDepth 100000 in
/-- Witness for C6 (amended): a text-only edit (`itemsC6c` to
`itemsC6d`) does not re-invoke the backend and returns the stale
vectors; changing the id set to `itemsC6e` re-invokes it. -/
theorem c6_cache_witness :
    (getCachedContentEmbeddings embedC6 itemsC6c emptyCache).invoked = true
    ∧ (getCachedContentEmbeddings embedC6 itemsC6d
        (getCachedContentEmbeddings embedC6 itemsC6c emptyCache).cache).invoked
        = false
    ∧ (getCachedContentEmbeddings embedC6 itemsC6d
        (getCachedContentEmbeddings embedC6 itemsC6c emptyCache).cache).result
        = embedC6 itemsC6c
    ∧ (getCachedContentEmbeddings embedC6 itemsC6e
        (getCachedContentEmbeddings embedC6 itemsC6c emptyCache).cache).invoked
        = true := by
  have h1 := c6_cache_keyed_by_id_hash embedC6 itemsC6c itemsC6d
  have h2 := c6_cache_keyed_by_id_hash embedC6 itemsC6c itemsC6e
  have hd : (getCachedContentEmbeddings embedC6 itemsC6d
      (getCachedContentEmbeddings embedC6 itemsC6c emptyCache).cache).invoked
      = false := h1.2.1.mpr (by decide)
  refine ⟨h1.1, hd, h1.2.2.1 hd, ?_⟩
  cases hinv : (getCachedContentEmbeddings embedC6 itemsC6e
      (getCachedContentEmbeddings embedC6 itemsC6c emptyCache).cache).invoked with
  | false => exact absurd (h2.2.1.mp hinv) (by decide)
  | true => rfl

/-- Witness for C7: the parse of `rawC7` keeps both objects, assigning
ranks 1 and 2 by position although the objects carried `"rank"` fields
9 and 1. -/
theorem c7_rank_witness :
    recsC7.length ≤ 3
    ∧ (recsC7.getD 0 dfltRec).rank = 1
    ∧ (recsC7.getD 1 dfltRec).rank = 2 := by
  have h := @c7_rank_is_output_position rawC7 candsC7 recsC7 (by decide)
  exact ⟨h.1, by decide, by decide⟩

/-- Witness for C8 (amended): with a matching candidate the absent
fields come from the candidate, the absent explanation from the fixed
sentence. -/
theorem c8_backfill_witness :
    (jlookup objC8w "title" = none →
        recC8w.title
          = ((matchedCandidate candsC8w objC8w).map (fun c => c.title)).getD "")
    ∧ (jlookup objC8w "format" = none →
        recC8w.format
          = ((matchedCandidate candsC8w objC8w).map (fun c => c.format)).getD "")
    ∧ (jlookup objC8w "difficulty" = none →
        recC8w.difficulty
          = ((matchedCandidate candsC8w objC8w).map (fun c => c.difficulty)).getD "")
    ∧ (jlookup objC8w "duration_minutes" = none →
        recC8w.duration_minutes
          = ((matchedCandidate candsC8w objC8w).map
              (fun c => c.duration_minutes)).getD 0)
    ∧ (jlookup objC8w "tags" = none →
        recC8w.tags
          = ((matchedCandidate candsC8w objC8w).map (fun c => c.tags)).getD [])
    ∧ (jlookup objC8w "explanation" = none →
        recC8w.explanation = "Recommended based on your profile.") :=
  @c8_missing_fields_backfilled candsC8w 1 objC8w recC8w (by decide)

/-- Witness for C9: the zero vector `[0, 0]` gives similarity 0 against
`[1, 2]` and retrieval behaves as on an all-zero similarity vector. -/
theorem c9_zero_vector_witness :
    cosineSim [0, 0] [1, 2] = 0
    ∧ retrieveTopKVec [0, 0] [[1, 2], [3, 4]] [dfltItem, dfltItem] 1 []
        = retrieveTopK (([[1, 2], [3, 4]] : List (List ℝ)).map
            (fun _ => (0 : ℝ))) [dfltItem, dfltItem] 1 [] := by
  have h := c9_zero_vector_cosine_zero [0, 0] (by simp)
  exact ⟨h.1 [1, 2], h.2 [[1, 2], [3, 4]] [dfltItem, dfltItem] 1 []⟩

/-- Witness for C10: a concrete failed remote call resolves, via the
single-path dichotomy, to the whole rule-based result. -/
theorem c10_single_path_witness :
    (rC10.method = "llm" ∧ ∃ text reasoning,
        LlmOutcome.failure "boom" = LlmOutcome.success text reasoning
        ∧ parseLlmResponse text [] = .ok rC10.recommendations
        ∧ rC10.reasoning_raw = reasoning)
    ∨ (rC10.method = "rule-based" ∧ ruleBasedRerank pC10 [] = .ok rC10) :=
  c10_single_ranking_path false (LlmOutcome.failure "boom") pC10 [] rC10
    (by decide)
